import Mathlib

/-!
Verification of the txscript core of dcr-disasm: the script-number codec, the
script tokenizer, the standard-script classifier, the address / atomic-swap
extractors and the null-data generator.  The package's implementation files are
not part of the provided sources (only its tests, examples and the CLI are), so
each operation is modelled from the specification, with the concrete behaviour
pinned against the test vectors of the test files (TestScriptNumBytes,
TestMakeScriptNum, TestScriptNumInt32, TestScriptClass,
TestExtractPkScriptAddrs, TestExtractAtomicSwapDataPushes,
TestGenerateProvablyPruneableOut, ExampleScriptTokenizer).

Bytes are modelled as natural numbers below 256, scripts as lists of bytes, the
64-bit signed script-number type as `Int` with explicit reduction modulo 2^64
where the original semantics overflow.
-/

deriving instance DecidableEq for Except

namespace DcrTxScript

/-- Error kinds of the subsystem (the ErrorKind taxonomy of the spec:
ScriptNumberTooLong is ErrNumOutOfRange in the tests, NonMinimalEncoding is
ErrMinimalData). -/
inductive ErrKind where
  | numOutOfRange
  | minimalData
  | malformedPush
  | unsupportedScriptVersion
  | tooMuchNullData
  | tooManyRequiredSigs
  | unsupportedAddress
  deriving DecidableEq

/-! ## Script number codec -/

/-- Modelled from the spec: the little-endian magnitude bytes of a natural
number, i.e. the loop of `ScriptNum.Bytes` that repeatedly emits `n % 256` and
shifts by 8 (scriptnum.go is not among the provided sources).  The first
argument is recursion fuel; `magBytes` instantiates it sufficiently. -/
def magBytesF : Nat → Nat → List Nat
  | 0, _ => []
  | _ + 1, 0 => []
  | f + 1, m + 1 => (m + 1) % 256 :: magBytesF f ((m + 1) / 256)

/-- Little-endian magnitude bytes of a natural number (empty for zero). -/
def magBytes (m : Nat) : List Nat := magBytesF m m

/-- Modelled from the spec: the minimal script-number encoding
(`ScriptNum.Bytes`): zero encodes to the empty sequence; otherwise the
little-endian magnitude bytes, extended by one byte (0x00, or 0x80 when
negative) whenever the most significant bit of the last magnitude byte is set,
with the sign bit OR'd into the final byte otherwise for negative values. -/
def scriptNumBytes (n : Int) : List Nat :=
  if n = 0 then []
  else
    let mag := magBytes n.natAbs
    if 128 ≤ mag.getLastD 0 then
      mag ++ [if n < 0 then 128 else 0]
    else if n < 0 then
      mag.dropLast ++ [mag.getLastD 0 + 128]
    else
      mag

/-- Little-endian base-256 value of a byte list. -/
def ofLE : List Nat → Nat
  | [] => 0
  | b :: r => b + 256 * ofLE r

/-- Two's-complement reinterpretation of a 64-bit pattern as a signed
integer. -/
def toInt64 (bits : Nat) : Int :=
  if bits < 2 ^ 63 then (bits : Int) else (bits : Int) - 2 ^ 64

/-- Modelled from the spec: the accumulation loop of `MakeScriptNum`
(`result |= int64(val) << (8*i)`).  Byte lanes are disjoint so the bitwise or
is addition, and a shift by 64 or more bits contributes nothing in the source
language. -/
def int64BitsAux : List Nat → Nat → Nat
  | [], _ => 0
  | b :: r, i => (if 8 * i < 64 then b * 2 ^ (8 * i) else 0) + int64BitsAux r (i + 1)

/-- The 64-bit accumulation of a little-endian byte list. -/
def int64Bits (v : List Nat) : Nat := int64BitsAux v 0

/-- Modelled from the spec: the minimality check of `MakeScriptNum` — an
encoding is rejected when its final byte has no magnitude bits set (0x00 or
0x80) and it is not needed to hold the sign bit of the preceding byte (the
single-byte 0x80 "negative zero" falls under the first alternative). -/
def nonMinimalEncoding (v : List Nat) : Bool :=
  match v.getLast? with
  | none => false
  | some b =>
    if b % 128 = 0 then
      match v.dropLast.getLast? with
      | none => true
      | some p => decide (p < 128)
    else false

/-- Modelled from the spec: the value computed by `MakeScriptNum` after
validation — the little-endian accumulation reduced to 64 bits, with the most
significant bit of the final byte removed and the result negated (as a 64-bit
two's-complement negation) when that bit is set.  For encodings longer than 8
bytes both the sign-bit removal and the extra lanes fall outside the 64-bit
window, matching the source's shift semantics. -/
def scriptNumValue (v : List Nat) : Int :=
  let bits := int64Bits v
  if 128 ≤ v.getLastD 0 then
    let cleared := if v.length ≤ 8 then bits % 2 ^ (8 * v.length - 1) else bits
    toInt64 ((2 ^ 64 - cleared) % 2 ^ 64)
  else toInt64 bits

/-- Modelled from the spec: `MakeScriptNum v numLen` — fails with
`numOutOfRange` (the spec's ScriptNumberTooLong) when the input exceeds
`numLen` bytes, with `minimalData` (NonMinimalEncoding) when the encoding is
not minimal, and otherwise decodes the little-endian bytes with the sign
carried in the high bit of the last byte.  Minimality is always required,
matching the two-argument call shape pinned by TestMakeScriptNum. -/
def MakeScriptNum (v : List Nat) (numLen : Nat) : Except ErrKind Int :=
  if numLen < v.length then .error .numOutOfRange
  else if nonMinimalEncoding v then .error .minimalData
  else if v = [] then .ok 0
  else .ok (scriptNumValue v)

/-- The maximum script-number length for math opcodes, pinned by
TestMakeScriptNum (4-byte values accepted, 5-byte values rejected). -/
def MathOpCodeMaxScriptNumLen : Nat := 4

/-- The maximum script-number length for the CHECKLOCKTIMEVERIFY operand. -/
def CltvMaxScriptNumLen : Nat := 5

/-- Modelled from the spec: `ScriptNum.Int32` saturates to the signed 32-bit
range rather than wrapping. -/
def scriptNumInt32 (n : Int) : Int :=
  if 2147483647 < n then 2147483647
  else if n < -2147483648 then -2147483648
  else n

/-! ## Codec lemmas -/

theorem magBytesF_zero (f : Nat) : magBytesF f 0 = [] := by
  cases f <;> rfl

theorem div256_le (k : Nat) : (k + 1) / 256 ≤ k := by
  have h2 : (k + 1) / 256 < k + 1 := Nat.div_lt_self (by omega) (by omega)
  omega

theorem ofLE_magBytesF : ∀ f m, m ≤ f → ofLE (magBytesF f m) = m := by
  intro f
  induction f with
  | zero =>
    intro m h
    have hm : m = 0 := by omega
    subst hm; rfl
  | succ f ih =>
    intro m h
    match m with
    | 0 => rfl
    | k + 1 =>
      show ofLE ((k + 1) % 256 :: magBytesF f ((k + 1) / 256)) = k + 1
      simp only [ofLE]
      rw [ih ((k + 1) / 256) (by have := div256_le k; omega)]
      omega

theorem magBytesF_mem_lt : ∀ f m b, b ∈ magBytesF f m → b < 256 := by
  intro f
  induction f with
  | zero => intro m b hb; simp [magBytesF] at hb
  | succ f ih =>
    intro m b hb
    match m with
    | 0 => simp [magBytesF] at hb
    | k + 1 =>
      simp only [magBytesF, List.mem_cons] at hb
      rcases hb with h | h
      · omega
      · exact ih _ _ h

theorem magBytesF_ne_nil : ∀ f m, m ≠ 0 → m ≤ f → magBytesF f m ≠ [] := by
  intro f m h0 h
  match f, m with
  | 0, m => omega
  | f + 1, 0 => omega
  | f + 1, k + 1 => simp [magBytesF]

theorem magBytesF_last_ne_zero : ∀ f m u t, m ≤ f → magBytesF f m = u ++ [t] → t ≠ 0 := by
  intro f
  induction f with
  | zero =>
    intro m u t hm he
    have hm0 : m = 0 := by omega
    subst hm0
    simp [magBytesF] at he
  | succ f ih =>
    intro m u t hm he
    match m with
    | 0 => simp [magBytesF] at he
    | k + 1 =>
      simp only [magBytesF] at he
      by_cases hq : (k + 1) / 256 = 0
      · rw [hq, magBytesF_zero] at he
        cases u with
        | nil =>
          simp at he
          have : k + 1 < 256 := by omega
          omega
        | cons a u₂ =>
          simp at he
      · cases u with
        | nil =>
          simp at he
          exact absurd he.2 (magBytesF_ne_nil f ((k + 1) / 256) hq
            (le_trans (div256_le k) (by omega)))
        | cons a u₂ =>
          simp at he
          exact ih _ u₂ t (le_trans (div256_le k) (by omega)) he.2

theorem ofLE_nil : ofLE [] = 0 := rfl

theorem ofLE_cons (b : Nat) (r : List Nat) : ofLE (b :: r) = b + 256 * ofLE r := rfl

theorem ofLE_append (u v : List Nat) :
    ofLE (u ++ v) = ofLE u + 256 ^ u.length * ofLE v := by
  induction u with
  | nil => simp [ofLE_nil]
  | cons b r ih =>
    rw [List.cons_append, ofLE_cons, ofLE_cons, ih, List.length_cons]
    ring

theorem ofLE_lt (v : List Nat) (h : ∀ b ∈ v, b < 256) : ofLE v < 256 ^ v.length := by
  induction v with
  | nil => simp [ofLE]
  | cons b r ih =>
    have hb : b < 256 := h b (by simp)
    have hr := ih (fun x hx => h x (by simp [hx]))
    simp only [ofLE, List.length_cons, pow_succ]
    nlinarith

theorem pow256_eq (k : Nat) : (256 : Nat) ^ k = 2 ^ (8 * k) := by
  rw [show (256 : Nat) = 2 ^ 8 by norm_num, ← pow_mul]

theorem int64BitsAux_eq (v : List Nat) :
    ∀ i, i + v.length ≤ 8 → int64BitsAux v i = 2 ^ (8 * i) * ofLE v := by
  induction v with
  | nil => intro i h; simp [int64BitsAux, ofLE]
  | cons b r ih =>
    intro i h
    simp only [List.length_cons] at h
    have h8 : 8 * i < 64 := by omega
    simp only [int64BitsAux, if_pos h8, ofLE]
    rw [ih (i + 1) (by omega)]
    have h2 : 2 ^ (8 * (i + 1)) = 2 ^ (8 * i) * 256 := by
      rw [show 8 * (i + 1) = 8 * i + 8 by ring, pow_add]
      norm_num
    rw [h2]
    ring

theorem int64Bits_eq_ofLE (v : List Nat) (h : v.length ≤ 8) : int64Bits v = ofLE v := by
  have := int64BitsAux_eq v 0 (by omega)
  simpa [int64Bits] using this

theorem toInt64_of_lt (bits : Nat) (h : bits < 2 ^ 63) : toInt64 bits = bits := by
  unfold toInt64
  rw [if_pos h]

theorem toInt64_wrap_neg (m : Nat) (h : m ≤ 2 ^ 63) :
    toInt64 ((2 ^ 64 - m) % 2 ^ 64) = -(m : Int) := by
  by_cases h0 : m = 0
  · subst h0
    simp [toInt64]
  · have h1 : 2 ^ 64 - m < 2 ^ 64 := by omega
    have h2 : ¬(2 ^ 64 - m < 2 ^ 63) := by omega
    rw [Nat.mod_eq_of_lt h1]
    simp only [toInt64, if_neg h2]
    rw [Nat.cast_sub (by omega : m ≤ 2 ^ 64)]
    push_cast
    ring

theorem nonMinimalEncoding_concat (u : List Nat) (t : Nat) :
    nonMinimalEncoding (u ++ [t]) =
      if t % 128 = 0 then
        (match u.getLast? with
         | none => true
         | some p => decide (p < 128))
      else false := by
  simp [nonMinimalEncoding, List.getLast?_concat, List.dropLast_concat]

/-- Helper: `MakeScriptNum` on a valid nonempty minimal encoding. -/
theorem MakeScriptNum_ok (v : List Nat) (numLen : Nat)
    (h1 : v.length ≤ numLen) (h2 : nonMinimalEncoding v = false) (h3 : v ≠ []) :
    MakeScriptNum v numLen = .ok (scriptNumValue v) := by
  unfold MakeScriptNum
  rw [if_neg (by omega), if_neg (by simp [h2]), if_neg h3]

/-- Value of a well-formed byte list whose final byte is below 128 (the
positive branch of `scriptNumValue`). -/
theorem scriptNumValue_concat_low (u : List Nat) (t : Nat)
    (hwf : ∀ b ∈ u, b < 256) (hL : u.length ≤ 7) (ht : t < 128) :
    scriptNumValue (u ++ [t]) = (ofLE (u ++ [t]) : Int) := by
  have hlast : (u ++ [t]).getLastD 0 = t := List.getLastD_concat _ _ _
  have hofLEu : ofLE u < 256 ^ u.length := ofLE_lt u hwf
  have hval : ofLE (u ++ [t]) = ofLE u + 256 ^ u.length * t := by
    rw [ofLE_append]; simp [ofLE_cons, ofLE_nil]
  have hbound : ofLE (u ++ [t]) < 2 ^ 63 := by
    have h1 : ofLE (u ++ [t]) < 256 ^ u.length * 128 := by
      have h2 : 256 ^ u.length * t ≤ 256 ^ u.length * 127 :=
        Nat.mul_le_mul_left _ (by omega)
      omega
    have h2 : (256 : Nat) ^ u.length * 128 ≤ 2 ^ 63 := by
      rw [pow256_eq]
      have h3 : (2 : Nat) ^ (8 * u.length) * 128 = 2 ^ (8 * u.length + 7) := by
        rw [pow_add]; norm_num
      rw [h3]
      exact Nat.pow_le_pow_right (by omega) (by omega)
    omega
  simp only [scriptNumValue, hlast]
  rw [if_neg (by omega : ¬(128 : Nat) ≤ t)]
  rw [int64Bits_eq_ofLE _ (by simp; omega), toInt64_of_lt _ hbound]

/-- Value of a well-formed byte list whose final byte carries the sign bit
(the negative branch of `scriptNumValue`): the high bit of the last byte is
cleared and the result negated. -/
theorem scriptNumValue_concat_high (u : List Nat) (t : Nat)
    (hwf : ∀ b ∈ u, b < 256) (hL : u.length ≤ 7) (ht : 128 ≤ t) (ht2 : t < 256) :
    scriptNumValue (u ++ [t]) =
      -((ofLE u + (t - 128) * 2 ^ (8 * u.length) : Nat) : Int) := by
  obtain ⟨s, rfl⟩ : ∃ s, t = s + 128 := ⟨t - 128, by omega⟩
  have hs : s + 128 - 128 = s := by omega
  have hs128 : s < 128 := by omega
  have hlast : (u ++ [s + 128]).getLastD 0 = s + 128 := List.getLastD_concat _ _ _
  have hlen : (u ++ [s + 128]).length = u.length + 1 := by simp
  have hofLEu : ofLE u < 2 ^ (8 * u.length) := by
    have h := ofLE_lt u hwf
    rwa [pow256_eq] at h
  have hval : ofLE (u ++ [s + 128]) = ofLE u + 2 ^ (8 * u.length) * (s + 128) := by
    rw [ofLE_append, pow256_eq]; simp [ofLE_cons, ofLE_nil]
  have hpow7 : (2 : Nat) ^ (8 * u.length + 7) = 2 ^ (8 * u.length) * 128 := by
    rw [pow_add]; norm_num
  have hidx : 8 * (u.length + 1) - 1 = 8 * u.length + 7 := by omega
  have hsplit : ofLE (u ++ [s + 128]) =
      (ofLE u + s * 2 ^ (8 * u.length)) + 2 ^ (8 * u.length + 7) := by
    rw [hval, hpow7]; ring
  have hm : ofLE u + s * 2 ^ (8 * u.length) < 2 ^ (8 * u.length + 7) := by
    rw [hpow7]
    have h2 : s * 2 ^ (8 * u.length) ≤ 127 * 2 ^ (8 * u.length) :=
      Nat.mul_le_mul_right _ (by omega)
    omega
  have hm63 : ofLE u + s * 2 ^ (8 * u.length) ≤ 2 ^ 63 := by
    have h7 : (2 : Nat) ^ (8 * u.length + 7) ≤ 2 ^ 63 :=
      Nat.pow_le_pow_right (by omega) (by omega)
    omega
  rw [hs]
  simp only [scriptNumValue, hlast, hlen]
  rw [if_pos (by omega : (128 : Nat) ≤ s + 128), if_pos (by omega : u.length + 1 ≤ 8)]
  rw [int64Bits_eq_ofLE _ (by simp; omega), hidx, hsplit]
  rw [Nat.add_mod_right, Nat.mod_eq_of_lt hm]
  exact toInt64_wrap_neg _ hm63

/-- C1: for every signed 64-bit integer n within the representable range for
the configured maximum byte length, decoding the minimal encoding of n with
minimality required returns n: `MakeScriptNum (scriptNumBytes n) maxLen = ok n`
(ScriptNum.Bytes composed with MakeScriptNum is the identity).  The bounds
exclude only the single 64-bit value -2^63, whose magnitude is not itself
representable in the source's signed 64-bit type. -/
theorem scriptnum_decode_encode_roundtrip (n : Int) (maxLen : Nat)
    (hlo : -(2 ^ 63) < n) (hhi : n < 2 ^ 63)
    (hlen : (scriptNumBytes n).length ≤ maxLen) :
    MakeScriptNum (scriptNumBytes n) maxLen = .ok n := by
  by_cases hz : n = 0
  · subst hz
    simp [scriptNumBytes, MakeScriptNum, nonMinimalEncoding]
  · have hm0 : n.natAbs ≠ 0 := by omega
    have hmlt : n.natAbs < 2 ^ 63 := by omega
    have hne : magBytes n.natAbs ≠ [] := magBytesF_ne_nil _ _ hm0 le_rfl
    rcases List.eq_nil_or_concat (magBytes n.natAbs) with hnil | ⟨u, t, hud⟩
    · exact absurd hnil hne
    rw [List.concat_eq_append] at hud
    have hval : ofLE (u ++ [t]) = n.natAbs := by
      rw [← hud]; exact ofLE_magBytesF _ _ le_rfl
    have ht0 : t ≠ 0 := magBytesF_last_ne_zero _ _ u t le_rfl hud
    have hwfall : ∀ b ∈ u ++ [t], b < 256 := by
      rw [← hud]; exact fun b hb => magBytesF_mem_lt _ _ b hb
    have ht256 : t < 256 := hwfall t (by simp)
    have hu256 : ∀ b ∈ u, b < 256 := fun b hb => hwfall b (by simp [hb])
    have huval : ofLE u < 256 ^ u.length := ofLE_lt u hu256
    have hsum : ofLE u + 256 ^ u.length * t = n.natAbs := by
      have h := ofLE_append u [t]
      rw [hval] at h
      simp only [ofLE_cons, ofLE_nil, Nat.mul_zero, Nat.add_zero] at h
      omega
    have hub : 256 ^ u.length ≤ n.natAbs := by
      have h1 : 256 ^ u.length * 1 ≤ 256 ^ u.length * t :=
        Nat.mul_le_mul_left _ (by omega)
      omega
    have hL : u.length ≤ 7 := by
      by_contra hc
      have h8 : (256 : Nat) ^ 8 ≤ 256 ^ u.length :=
        Nat.pow_le_pow_right (by omega) (by omega)
      have h64 : (2 : Nat) ^ 64 ≤ n.natAbs := by
        calc (2 : Nat) ^ 64 = 256 ^ 8 := by norm_num
        _ ≤ 256 ^ u.length := h8
        _ ≤ n.natAbs := hub
      omega
    by_cases htop : 128 ≤ t
    · -- extension-byte form: magnitude bytes followed by a pure sign byte
      have hL6 : u.length ≤ 6 := by
        by_contra hc
        have h7 : (256 : Nat) ^ 7 ≤ 256 ^ u.length :=
          Nat.pow_le_pow_right (by omega) (by omega)
        have h128 : 256 ^ u.length * 128 ≤ 256 ^ u.length * t :=
          Nat.mul_le_mul_left _ htop
        have h63 : (2 : Nat) ^ 63 ≤ 256 ^ u.length * 128 := by
          calc (2 : Nat) ^ 63 = 256 ^ 7 * 128 := by norm_num
          _ ≤ 256 ^ u.length * 128 := Nat.mul_le_mul_right _ h7
        omega
      have henc : scriptNumBytes n = (u ++ [t]) ++ [if n < 0 then 128 else 0] := by
        simp only [scriptNumBytes, if_neg hz, hud, List.getLastD_concat]
        rw [if_pos htop]
      have hmin : nonMinimalEncoding ((u ++ [t]) ++ [if n < 0 then 128 else 0]) = false := by
        rw [nonMinimalEncoding_concat, List.getLast?_concat]
        have hb : (if n < 0 then (128 : Nat) else 0) % 128 = 0 := by
          split <;> norm_num
        rw [if_pos hb]
        exact decide_eq_false (by omega)
      rw [henc] at hlen ⊢
      rw [MakeScriptNum_ok _ _ hlen hmin (by simp)]
      by_cases hsign : n < 0
      · rw [if_pos hsign]
        rw [scriptNumValue_concat_high (u ++ [t]) 128 hwfall (by simp; omega)
          le_rfl (by omega)]
        have harith : ofLE (u ++ [t]) + (128 - 128) * 2 ^ (8 * (u ++ [t]).length) =
            n.natAbs := by
          simp [hval]
        rw [harith]
        have hfin : -((n.natAbs : Nat) : Int) = n := by omega
        rw [hfin]
      · rw [if_neg hsign]
        rw [scriptNumValue_concat_low (u ++ [t]) 0 hwfall (by simp; omega) (by omega)]
        have harith : ofLE ((u ++ [t]) ++ [0]) = n.natAbs := by
          rw [ofLE_append]
          simp [ofLE_cons, ofLE_nil, hval]
        rw [harith]
        have hfin : ((n.natAbs : Nat) : Int) = n := by omega
        rw [hfin]
    · -- the sign bit fits in the top magnitude byte
      by_cases hsign : n < 0
      · have henc : scriptNumBytes n = u ++ [t + 128] := by
          simp only [scriptNumBytes, if_neg hz, hud, List.getLastD_concat,
            List.dropLast_concat]
          rw [if_neg htop, if_pos hsign]
        have hmin : nonMinimalEncoding (u ++ [t + 128]) = false := by
          rw [nonMinimalEncoding_concat, if_neg (by omega : ¬(t + 128) % 128 = 0)]
        rw [henc] at hlen ⊢
        rw [MakeScriptNum_ok _ _ hlen hmin (by simp)]
        rw [scriptNumValue_concat_high u (t + 128) hu256 hL (by omega) (by omega)]
        have harith : ofLE u + (t + 128 - 128) * 2 ^ (8 * u.length) = n.natAbs := by
          have hsimp : t + 128 - 128 = t := by omega
          rw [hsimp, ← pow256_eq, Nat.mul_comm t (256 ^ u.length)]
          exact hsum
        rw [harith]
        have hfin : -((n.natAbs : Nat) : Int) = n := by omega
        rw [hfin]
      · have henc : scriptNumBytes n = u ++ [t] := by
          simp only [scriptNumBytes, if_neg hz, hud, List.getLastD_concat]
          rw [if_neg htop, if_neg hsign]
        have hmin : nonMinimalEncoding (u ++ [t]) = false := by
          rw [nonMinimalEncoding_concat, if_neg (by omega : ¬t % 128 = 0)]
        rw [henc] at hlen ⊢
        rw [MakeScriptNum_ok _ _ hlen hmin (by simp)]
        rw [scriptNumValue_concat_low u t hu256 hL (by omega), hval]
        have hfin : ((n.natAbs : Nat) : Int) = n := by omega
        rw [hfin]

/-- Witness for C1 at the concrete value -129 (encoding 0x8180) with the math
opcode maximum length. -/
theorem scriptnum_decode_encode_roundtrip_witness :
    MakeScriptNum (scriptNumBytes (-129)) MathOpCodeMaxScriptNumLen = .ok (-129) :=
  scriptnum_decode_encode_roundtrip (-129) MathOpCodeMaxScriptNumLen
    (by decide) (by decide) (by decide)

/-- C2: when minimality is required, `MakeScriptNum` fails with the
NonMinimalEncoding error kind (ErrMinimalData) for the single byte 0x80 alone
(negative zero), and likewise for every byte sequence carrying a superfluous
high-order zero byte that could be dropped — a final byte with no magnitude
bits (0x00 or 0x80) whose predecessor, if any, does not need it for its sign
bit — returning no decoded value; e.g. 0x00, 0x0100 and 0xff7f00 are all
rejected this way. -/
theorem makeScriptNum_rejects_nonminimal :
    (∀ (v : List Nat) (numLen t : Nat), v.length ≤ numLen → v.getLast? = some t →
        t % 128 = 0 → (∀ p ∈ v.dropLast.getLast?, p < 128) →
        MakeScriptNum v numLen = .error .minimalData) ∧
    MakeScriptNum [0x80] MathOpCodeMaxScriptNumLen = .error .minimalData ∧
    MakeScriptNum [0x00] MathOpCodeMaxScriptNumLen = .error .minimalData ∧
    MakeScriptNum [0x01, 0x00] MathOpCodeMaxScriptNumLen = .error .minimalData ∧
    MakeScriptNum [0xff, 0x7f, 0x00] MathOpCodeMaxScriptNumLen = .error .minimalData := by
  refine ⟨?_, by decide, by decide, by decide, by decide⟩
  intro v numLen t hlen hlast ht hprev
  have hmin : nonMinimalEncoding v = true := by
    unfold nonMinimalEncoding
    rw [hlast]
    show (if t % 128 = 0 then
        match v.dropLast.getLast? with
        | none => true
        | some p => decide (p < 128)
      else false) = true
    rw [if_pos ht]
    cases hp : v.dropLast.getLast? with
    | none => rfl
    | some p => exact decide_eq_true (hprev p (by simp [hp]))
  unfold MakeScriptNum
  rw [if_neg (by omega), if_pos hmin]

/-- Witness for C2's universally quantified part at the concrete non-minimal
encoding 0xff7f00. -/
theorem makeScriptNum_rejects_nonminimal_witness :
    MakeScriptNum [0xff, 0x7f, 0x00] MathOpCodeMaxScriptNumLen = .error .minimalData :=
  makeScriptNum_rejects_nonminimal.1 [0xff, 0x7f, 0x00] MathOpCodeMaxScriptNumLen 0
    (by decide) (by decide) (by decide) (by decide)

/-- C3: converting a script number to a 32-bit integer saturates rather than
wraps — values inside [i32::MIN, i32::MAX] are returned unchanged, values above
i32::MAX return exactly i32::MAX, values below i32::MIN return exactly
i32::MIN. -/
theorem scriptNumInt32_saturates (n : Int) :
    (-2147483648 ≤ n ∧ n ≤ 2147483647 → scriptNumInt32 n = n) ∧
    (2147483647 < n → scriptNumInt32 n = 2147483647) ∧
    (n < -2147483648 → scriptNumInt32 n = -2147483648) := by
  unfold scriptNumInt32
  refine ⟨fun h => ?_, fun h => ?_, fun h => ?_⟩
  · rw [if_neg (by omega), if_neg (by omega)]
  · rw [if_pos h]
  · rw [if_neg (by omega), if_pos h]

/-- Witness for C3 at in-range, above-range and below-range inputs. -/
theorem scriptNumInt32_saturates_witness :
    scriptNumInt32 (-2147483648) = -2147483648 ∧
    scriptNumInt32 9223372036854775807 = 2147483647 ∧
    scriptNumInt32 (-9223372036854775808) = -2147483648 :=
  ⟨(scriptNumInt32_saturates (-2147483648)).1 (by decide),
   (scriptNumInt32_saturates 9223372036854775807).2.1 (by decide),
   (scriptNumInt32_saturates (-9223372036854775808)).2.2 (by decide)⟩

/-- C10: with a caller-provided maximum length of 9 or more bytes,
`MakeScriptNum` accepts minimally-encoded inputs longer than 8 bytes and the
decoded value wraps modulo 2^64 instead of being rejected or saturated: the
9-byte encoding ffffffffffffffff7f decodes to -1, ffffffffffffffffff decodes
to +1, and the analogous 10-byte encodings do the same. -/
theorem makeScriptNum_wraps_beyond_eight_bytes :
    MakeScriptNum (List.replicate 8 0xff ++ [0x7f]) 9 = .ok (-1) ∧
    MakeScriptNum (List.replicate 9 0xff) 9 = .ok 1 ∧
    MakeScriptNum (List.replicate 9 0xff ++ [0x7f]) 10 = .ok (-1) ∧
    MakeScriptNum (List.replicate 10 0xff) 10 = .ok 1 := by
  refine ⟨by decide, by decide, by decide, by decide⟩

/-! ## Tokenizer -/

/-- One tokenization step's result: the opcode and its data payload (empty for
non-push opcodes). -/
structure Token where
  opcode : Nat
  data : List Nat
  deriving DecidableEq

/-- Modelled from the spec: the per-opcode data rule enforced by the tokenizer
(tokenizer.go is not among the provided sources) — fixed-length data opcodes
1..75 consume exactly that many following bytes, the length-prefixed push
opcodes 76/77/78 (PUSHDATA1/2/4) read a 1/2/4-byte little-endian length prefix
and then that many bytes, and every other opcode consumes nothing.  `none` is
the MalformedPush failure for a truncated prefix or payload; otherwise the
result is the data payload together with the number of bytes consumed after
the opcode byte. -/
def readTokenData (op : Nat) (rest : List Nat) : Option (List Nat × Nat) :=
  if 1 ≤ op ∧ op ≤ 75 then
    if op ≤ rest.length then some (rest.take op, op) else none
  else if op = 76 then
    match rest with
    | [] => none
    | l :: r => if l ≤ r.length then some (r.take l, 1 + l) else none
  else if op = 77 then
    match rest with
    | l0 :: l1 :: r =>
      if l0 + 256 * l1 ≤ r.length then some (r.take (l0 + 256 * l1), 2 + (l0 + 256 * l1))
      else none
    | _ => none
  else if op = 78 then
    match rest with
    | l0 :: l1 :: l2 :: l3 :: r =>
      if l0 + 256 * l1 + 65536 * l2 + 16777216 * l3 ≤ r.length then
        some (r.take (l0 + 256 * l1 + 65536 * l2 + 16777216 * l3),
          4 + (l0 + 256 * l1 + 65536 * l2 + 16777216 * l3))
      else none
    | _ => none
  else some ([], 0)

/-- Modelled from the spec: the tokenizer's scan as a single recursion over
the remaining script bytes (the cursor state of the source is the list suffix
here).  The first argument is recursion fuel; since every step consumes at
least the opcode byte, a fuel of the script length suffices (`tokenizeV0`).
`none` is a MalformedPush failure that freezes the scan; `some ts` is a clean
termination after producing the tokens `ts`. -/
def tokenizeF : Nat → List Nat → Option (List Token)
  | _, [] => some []
  | 0, _ :: _ => none
  | f + 1, op :: rest =>
    match readTokenData op rest with
    | none => none
    | some (d, k) => (tokenizeF f (rest.drop k)).map (fun ts => ⟨op, d⟩ :: ts)

/-- Full tokenization of a version-0 script. -/
def tokenizeV0 (s : List Nat) : Option (List Token) := tokenizeF s.length s

/-- Modelled from the spec: tokenization at a script version — only version 0
is parseable; any other version immediately yields zero tokens with no
error. -/
def tokenize (version : Nat) (s : List Nat) : Option (List Token) :=
  if version = 0 then tokenizeV0 s else some []

/-- Fuel does not matter once it reaches the script length. -/
theorem tokenizeF_congr : ∀ f g (s : List Nat), s.length ≤ f → s.length ≤ g →
    tokenizeF f s = tokenizeF g s := by
  intro f
  induction f with
  | zero =>
    intro g s hf hg
    have hs : s = [] := by
      cases s with
      | nil => rfl
      | cons a r => simp at hf
    subst hs
    cases g <;> rfl
  | succ f ih =>
    intro g s hf hg
    cases s with
    | nil => cases g <;> rfl
    | cons op rest =>
      cases g with
      | zero => simp at hg
      | succ g =>
        show tokenizeF (f + 1) (op :: rest) = tokenizeF (g + 1) (op :: rest)
        simp only [tokenizeF]
        cases h : readTokenData op rest with
        | none => rfl
        | some dk =>
          obtain ⟨d, k⟩ := dk
          have hlen : (rest.drop k).length ≤ f := by
            simp only [List.length_cons] at hf
            simp [List.length_drop]
            omega
          have hlen2 : (rest.drop k).length ≤ g := by
            simp only [List.length_cons] at hg
            simp [List.length_drop]
            omega
          show (tokenizeF f (rest.drop k)).map (fun ts => (⟨op, d⟩ : Token) :: ts) =
            (tokenizeF g (rest.drop k)).map (fun ts => (⟨op, d⟩ : Token) :: ts)
          rw [ih g (rest.drop k) hlen hlen2]

/-- Tokenizing a list headed by a well-formed single token continues after
it. -/
theorem tokenizeV0_step (op : Nat) (rest d : List Nat) (k : Nat)
    (h : readTokenData op rest = some (d, k)) :
    tokenizeV0 (op :: rest) = (tokenizeV0 (rest.drop k)).map (fun ts => ⟨op, d⟩ :: ts) := by
  have h1 : tokenizeV0 (op :: rest) =
      match readTokenData op rest with
      | none => none
      | some (d, k) => (tokenizeF rest.length (rest.drop k)).map
          (fun ts => (⟨op, d⟩ : Token) :: ts) := rfl
  rw [h1, h]
  show (tokenizeF rest.length (rest.drop k)).map (fun ts => (⟨op, d⟩ : Token) :: ts) = _
  rw [tokenizeF_congr rest.length (rest.drop k).length (rest.drop k)
    (by simp only [List.length_drop]; omega) le_rfl]
  rfl

/-- A non-push opcode (neither a fixed data opcode nor a PUSHDATA) consumes
nothing. -/
theorem tokenizeV0_cons_op (op : Nat) (rest : List Nat) (h : op = 0 ∨ 79 ≤ op) :
    tokenizeV0 (op :: rest) = (tokenizeV0 rest).map (fun ts => ⟨op, []⟩ :: ts) := by
  have hr : readTokenData op rest = some ([], 0) := by
    unfold readTokenData
    rw [if_neg (by omega), if_neg (by omega), if_neg (by omega), if_neg (by omega)]
  have := tokenizeV0_step op rest [] 0 hr
  simpa using this

/-- A fixed-length data opcode consumes exactly its own value in bytes. -/
theorem tokenizeV0_cons_data (op : Nat) (d rest : List Nat)
    (h1 : 1 ≤ op) (h2 : op ≤ 75) (hd : d.length = op) :
    tokenizeV0 (op :: (d ++ rest)) = (tokenizeV0 rest).map (fun ts => ⟨op, d⟩ :: ts) := by
  have htake : (d ++ rest).take op = d := by
    rw [← hd]; exact List.take_left d rest
  have hdrop : (d ++ rest).drop op = rest := by
    rw [← hd]; exact List.drop_left d rest
  have hr : readTokenData op (d ++ rest) = some (d, op) := by
    unfold readTokenData
    rw [if_pos ⟨h1, h2⟩, if_pos (by simp; omega), htake]
  have := tokenizeV0_step op (d ++ rest) d op hr
  rwa [hdrop] at this

/-- A PUSHDATA1 opcode consumes its one-byte length prefix and that many data
bytes. -/
theorem tokenizeV0_cons_pushData1 (l : Nat) (d rest : List Nat) (hd : d.length = l) :
    tokenizeV0 (76 :: l :: (d ++ rest)) =
      (tokenizeV0 rest).map (fun ts => ⟨76, d⟩ :: ts) := by
  have htake : (d ++ rest).take l = d := by
    rw [← hd]; exact List.take_left d rest
  have hr : readTokenData 76 (l :: (d ++ rest)) = some (d, 1 + l) := by
    unfold readTokenData
    rw [if_neg (by omega), if_pos rfl]
    show (if l ≤ (d ++ rest).length then some ((d ++ rest).take l, 1 + l) else none) = _
    rw [if_pos (by simp; omega), htake]
  have := tokenizeV0_step 76 (l :: (d ++ rest)) d (1 + l) hr
  rw [this]
  have hdrop : (l :: (d ++ rest)).drop (1 + l) = rest := by
    rw [show 1 + l = l + 1 by omega]
    show (d ++ rest).drop l = rest
    rw [← hd]; exact List.drop_left d rest
  rw [hdrop]

/-- A PUSHDATA2 opcode consumes its two-byte little-endian length prefix and
that many data bytes. -/
theorem tokenizeV0_cons_pushData2 (l0 l1 : Nat) (d rest : List Nat)
    (hd : d.length = l0 + 256 * l1) :
    tokenizeV0 (77 :: l0 :: l1 :: (d ++ rest)) =
      (tokenizeV0 rest).map (fun ts => ⟨77, d⟩ :: ts) := by
  have htake : (d ++ rest).take (l0 + 256 * l1) = d := by
    rw [← hd]; exact List.take_left d rest
  have hr : readTokenData 77 (l0 :: l1 :: (d ++ rest)) =
      some (d, 2 + (l0 + 256 * l1)) := by
    unfold readTokenData
    rw [if_neg (by omega), if_neg (by omega), if_pos rfl]
    show (if l0 + 256 * l1 ≤ (d ++ rest).length then
      some ((d ++ rest).take (l0 + 256 * l1), 2 + (l0 + 256 * l1)) else none) = _
    rw [if_pos (by simp; omega), htake]
  have := tokenizeV0_step 77 (l0 :: l1 :: (d ++ rest)) d (2 + (l0 + 256 * l1)) hr
  rw [this]
  have hdrop : (l0 :: l1 :: (d ++ rest)).drop (2 + (l0 + 256 * l1)) = rest := by
    rw [show 2 + (l0 + 256 * l1) = (l0 + 256 * l1) + 1 + 1 by omega]
    show (d ++ rest).drop (l0 + 256 * l1) = rest
    rw [← hd]; exact List.drop_left d rest
  rw [hdrop]

/-- C4: tokenizing (at script version 0) the canonical pay-to-pubkey-hash
script DUP HASH160 (20-byte push) EQUALVERIFY CHECKSIG yields exactly 5
tokens: the scan succeeds end to end (`some`, i.e. Next() returned true for
each of the tokens and then false with Err() nil) and the token list has
length 5. -/
theorem p2pkh_tokenizes_to_five_opcodes (h : List Nat) (hh : h.length = 20) :
    tokenize 0 ([118, 169, 20] ++ h ++ [136, 172]) =
      some [⟨118, []⟩, ⟨169, []⟩, ⟨20, h⟩, ⟨136, []⟩, ⟨172, []⟩] ∧
    (([⟨118, []⟩, ⟨169, []⟩, ⟨20, h⟩, ⟨136, []⟩, ⟨172, []⟩] : List Token)).length = 5 := by
  refine ⟨?_, rfl⟩
  show tokenizeV0 _ = _
  have e1 : ([118, 169, 20] : List Nat) ++ h ++ [136, 172] =
      118 :: 169 :: 20 :: (h ++ [136, 172]) := by simp
  rw [e1]
  rw [tokenizeV0_cons_op 118 _ (by omega), tokenizeV0_cons_op 169 _ (by omega)]
  rw [tokenizeV0_cons_data 20 h [136, 172] (by omega) (by omega) hh]
  rw [tokenizeV0_cons_op 136 _ (by omega), tokenizeV0_cons_op 172 _ (by omega)]
  rfl

/-- Witness for C4 at a concrete 20-byte hash. -/
theorem p2pkh_tokenizes_to_five_opcodes_witness :
    tokenize 0 ([118, 169, 20] ++ List.replicate 20 1 ++ [136, 172]) =
      some [⟨118, []⟩, ⟨169, []⟩, ⟨20, List.replicate 20 1⟩, ⟨136, []⟩, ⟨172, []⟩] ∧
    (([⟨118, []⟩, ⟨169, []⟩, ⟨20, List.replicate 20 1⟩, ⟨136, []⟩, ⟨172, []⟩] :
      List Token)).length = 5 :=
  p2pkh_tokenizes_to_five_opcodes (List.replicate 20 1) (by decide)

/-! ## Script classifier -/

/-- The script classes (ScriptClass in the source package). -/
inductive ScriptClass where
  | NonStandardTy
  | PubKeyTy
  | PubKeyHashTy
  | ScriptHashTy
  | MultiSigTy
  | NullDataTy
  | StakeSubmissionTy
  | StakeGenTy
  | StakeRevocationTy
  | StakeSubChangeTy
  | TreasuryAddTy
  | TreasurySpendTy
  deriving DecidableEq

/-- A small integer opcode: OP_0 (0) or OP_1..OP_16 (81..96). -/
def IsSmallInt (op : Nat) : Bool := decide (op = 0 ∨ (81 ≤ op ∧ op ≤ 96))

/-- The integer a small integer opcode represents. -/
def AsSmallInt (op : Nat) : Nat := if op = 0 then 0 else op - 80

/-- Modelled from the spec: the pay-to-pubkey template over the token stream —
exactly one push of a 33- or 65-byte value followed by CHECKSIG (172); the
payload is the serialized public key (standard.go is not among the provided
sources). -/
def extractPubKeyToks : List Token → Option (List Nat)
  | [t0, t1] =>
    if t1.opcode = 172 ∧
        ((t0.opcode = 33 ∧ t0.data.length = 33) ∨ (t0.opcode = 65 ∧ t0.data.length = 65)) then
      some t0.data
    else none
  | _ => none

/-- Modelled from the spec: the pay-to-pubkey-hash template DUP (118) HASH160
(169) 20-byte-push EQUALVERIFY (136) CHECKSIG (172); the payload is the
pubkey hash. -/
def extractPubKeyHashToks : List Token → Option (List Nat)
  | [t0, t1, t2, t3, t4] =>
    if t0.opcode = 118 ∧ t1.opcode = 169 ∧ t2.opcode = 20 ∧ t2.data.length = 20 ∧
        t3.opcode = 136 ∧ t4.opcode = 172 then
      some t2.data
    else none
  | _ => none

/-- Modelled from the spec: the pay-to-script-hash template HASH160 (169)
20-byte-push EQUAL (135); the payload is the script hash. -/
def extractScriptHashToks : List Token → Option (List Nat)
  | [t0, t1, t2] =>
    if t0.opcode = 169 ∧ t1.opcode = 20 ∧ t1.data.length = 20 ∧ t2.opcode = 135 then
      some t1.data
    else none
  | _ => none

/-- A token that counts as a public key push inside a multisig template: a
33- or 65-byte canonical data push. -/
def isMultiSigKeyPush (t : Token) : Bool :=
  decide ((t.opcode = 33 ∧ t.data.length = 33) ∨ (t.opcode = 65 ∧ t.data.length = 65))

/-- Splits the longest leading run of pubkey pushes off a token list. -/
def splitKeyPushes : List Token → List (List Nat) × List Token
  | [] => ([], [])
  | t :: rest =>
    if isMultiSigKeyPush t then
      (t.data :: (splitKeyPushes rest).1, (splitKeyPushes rest).2)
    else ([], t :: rest)

/-- Modelled from the spec: the multisig template — a small integer m, one or
more 33/65-byte pushes, a small integer n equal to the push count, then
CHECKMULTISIG (174) and nothing else, with 1 ≤ m ≤ n ≤ 20.  Returns the
required-signature count m and the raw pushed keys. -/
def extractMultiSigToks (ts : List Token) : Option (Nat × List (List Nat)) :=
  match ts with
  | [] => none
  | t0 :: rest =>
    if IsSmallInt t0.opcode then
      match splitKeyPushes rest with
      | (keys, [tn, tc]) =>
        if IsSmallInt tn.opcode ∧ AsSmallInt tn.opcode = keys.length ∧ tc.opcode = 174 ∧
            1 ≤ AsSmallInt t0.opcode ∧ AsSmallInt t0.opcode ≤ keys.length ∧
            keys.length ≤ 20 then
          some (AsSmallInt t0.opcode, keys)
        else none
      | _ => none
    else none

/-- The maximum number of bytes of pushed data for a script to qualify as a
standard null-data script, pinned by the test fixtures (a 255-byte payload
generates and classifies as null data, a 257-byte payload is TooMuchNullData,
an 80-byte push classifies as null data while a 280-byte push is
nonstandard). -/
def MaxDataCarrierSize : Nat := 256

/-- Modelled from the spec: the null-data template — RETURN (106) alone, or
RETURN followed by exactly one push-style token (a small integer, or an opcode
up to PUSHDATA4) of at most `MaxDataCarrierSize` bytes. -/
def isNullDataToks : List Token → Bool
  | [t0] => decide (t0.opcode = 106)
  | [t0, t1] =>
    decide (t0.opcode = 106) && (IsSmallInt t1.opcode || decide (t1.opcode ≤ 78)) &&
      decide (t1.data.length ≤ MaxDataCarrierSize)
  | _ => false

/-- Whether an opcode is one of the four staking tags SSTX (186), SSGEN (187),
SSRTX (188), SSTXCHANGE (189). -/
def isStakeTag (op : Nat) : Bool := decide (op = 186 ∨ op = 187 ∨ op = 188 ∨ op = 189)

/-- The staking class associated with a staking tag opcode. -/
def stakeClassOfTag (op : Nat) : ScriptClass :=
  if op = 186 then .StakeSubmissionTy
  else if op = 187 then .StakeGenTy
  else if op = 188 then .StakeRevocationTy
  else .StakeSubChangeTy

/-- Modelled from the spec: the staking-tagged variants — one of the four
staking tag opcodes prefixed onto a ScriptHash- or PubKeyHash-shaped
remainder; the class is the tag's staking class. -/
def classifyStakeToks : List Token → Option ScriptClass
  | [] => none
  | t :: rest =>
    if isStakeTag t.opcode ∧
        ((extractScriptHashToks rest).isSome ∨ (extractPubKeyHashToks rest).isSome) then
      some (stakeClassOfTag t.opcode)
    else none

/-- Modelled from the spec: the treasury-add shape — the TADD tag (193)
alone (analogous tag-prefixed recognition; the spec fixes only that treasury
shapes are tag-based and gated by the treasury flag). -/
def isTreasuryAddToks : List Token → Bool
  | [t0] => decide (t0.opcode = 193)
  | _ => false

/-- Modelled from the spec: the treasury-spend shape — a 64-byte signature
push and a 33-byte public key push followed by the TSPEND tag (194). -/
def isTreasurySpendToks : List Token → Bool
  | [t0, t1, t2] =>
    decide (t0.opcode = 64 ∧ t0.data.length = 64 ∧ t1.opcode = 33 ∧
      t1.data.length = 33 ∧ t2.opcode = 194)
  | _ => false

/-- Modelled from the spec: template matching over the full tokenized opcode
sequence in fixed precedence order — PubKey, PubKeyHash, ScriptHash, MultiSig,
NullData, the staking variants, then (only when the treasury agenda is
active) the treasury variants; anything else is NonStandard. -/
def classifyTokens (ts : List Token) (treasuryActive : Bool) : ScriptClass :=
  if (extractPubKeyToks ts).isSome then .PubKeyTy
  else if (extractPubKeyHashToks ts).isSome then .PubKeyHashTy
  else if (extractScriptHashToks ts).isSome then .ScriptHashTy
  else if (extractMultiSigToks ts).isSome then .MultiSigTy
  else if isNullDataToks ts then .NullDataTy
  else
    match classifyStakeToks ts with
    | some c => c
    | none =>
      if treasuryActive && isTreasuryAddToks ts then .TreasuryAddTy
      else if treasuryActive && isTreasurySpendToks ts then .TreasurySpendTy
      else .NonStandardTy

/-- Modelled from the spec: GetScriptClass — tokenize the script at the given
version and match the templates; a tokenization failure is swallowed and
degrades to NonStandard, never propagating a parse error. -/
def GetScriptClass (version : Nat) (script : List Nat) (treasuryActive : Bool) :
    ScriptClass :=
  match tokenize version script with
  | none => .NonStandardTy
  | some ts => classifyTokens ts treasuryActive

/-- C5: for every byte sequence on which tokenization fails, classification
returns NonStandard and does not propagate any parse error, for both settings
of the treasury-agenda flag. -/
theorem parse_failure_classifies_nonstandard (s : List Nat) (flag : Bool)
    (h : tokenize 0 s = none) : GetScriptClass 0 s flag = .NonStandardTy := by
  unfold GetScriptClass
  rw [h]

/-- Witness for C5: the single byte OP_DATA_45 is a truncated push, and it
classifies as NonStandard under both flag settings. -/
theorem parse_failure_classifies_nonstandard_witness :
    tokenize 0 [45] = none ∧
    GetScriptClass 0 [45] false = .NonStandardTy ∧
    GetScriptClass 0 [45] true = .NonStandardTy :=
  ⟨by decide,
   parse_failure_classifies_nonstandard [45] false (by decide),
   parse_failure_classifies_nonstandard [45] true (by decide)⟩

/-! ## Address extraction and the multisig template -/

/-- Modelled from the spec: ExtractPkScriptAddrs — returns the script class,
the extracted addresses, the required-signature count and an error.  Address
construction and public key decoding are external collaborators (dcrutil /
secp256k1), abstracted here by the predicate `pkDecodable` on the raw pushed
bytes; addresses are modelled as the raw script payloads that produce them.
A pushed public key that does not decode is skipped silently, so a multisig
script may yield fewer addresses than pushes; a tokenization failure surfaces
an error together with class NonStandard and no addresses.  The spec does not
specify extraction for the staking/treasury classes, which are not exercised
by the claims; they yield no addresses here. -/
def ExtractPkScriptAddrs (pkDecodable : List Nat → Bool) (version : Nat)
    (script : List Nat) (treasuryActive : Bool) :
    ScriptClass × List (List Nat) × Nat × Option ErrKind :=
  match tokenize version script with
  | none => (.NonStandardTy, [], 0, some .malformedPush)
  | some ts =>
    match extractPubKeyToks ts with
    | some d => (.PubKeyTy, if pkDecodable d then [d] else [], 1, none)
    | none =>
      match extractPubKeyHashToks ts with
      | some h => (.PubKeyHashTy, [h], 1, none)
      | none =>
        match extractScriptHashToks ts with
        | some h => (.ScriptHashTy, [h], 1, none)
        | none =>
          match extractMultiSigToks ts with
          | some mk => (.MultiSigTy, mk.2.filter pkDecodable, mk.1, none)
          | none => (classifyTokens ts treasuryActive, [], 0, none)

/-- The opcode directly representing a small integer (OP_0 for zero, OP_1..
OP_16 otherwise). -/
def smallIntOp (k : Nat) : Nat := if k = 0 then 0 else 80 + k

/-- The canonical multisig script for m-of-n over the given serialized keys:
a small integer m, a canonical data push per key, a small integer n and
CHECKMULTISIG. -/
def multiSigScriptBytes (m n : Nat) (keys : List (List Nat)) : List Nat :=
  smallIntOp m :: ((keys.map (fun k => k.length :: k)).flatten ++ [smallIntOp n, 174])

theorem extractPubKeyToks_none_of_length (ts : List Token) (h : ts.length ≠ 2) :
    extractPubKeyToks ts = none := by
  match ts with
  | [] => rfl
  | [_] => rfl
  | [_, _] => simp at h
  | _ :: _ :: _ :: _ => rfl

theorem extractPubKeyHashToks_none_of_first (t : Token) (ts : List Token)
    (h : t.opcode ≠ 118) : extractPubKeyHashToks (t :: ts) = none := by
  match ts with
  | [] => rfl
  | [_] => rfl
  | [_, _] => rfl
  | [_, _, _] => rfl
  | [t1, t2, t3, t4] =>
    simp only [extractPubKeyHashToks]
    rw [if_neg (fun hc => h hc.1)]
  | _ :: _ :: _ :: _ :: _ :: _ => rfl

theorem extractScriptHashToks_none_of_first (t : Token) (ts : List Token)
    (h : t.opcode ≠ 169) : extractScriptHashToks (t :: ts) = none := by
  match ts with
  | [] => rfl
  | [_] => rfl
  | [t1, t2] =>
    simp only [extractScriptHashToks]
    rw [if_neg (fun hc => h hc.1)]
  | _ :: _ :: _ :: _ => rfl

theorem classifyTokens_of_multisig (ts : List Token) (m : Nat) (keys : List (List Nat))
    (h2 : extractPubKeyToks ts = none) (h3 : extractPubKeyHashToks ts = none)
    (h4 : extractScriptHashToks ts = none)
    (h5 : extractMultiSigToks ts = some (m, keys)) (flag : Bool) :
    classifyTokens ts flag = .MultiSigTy := by
  unfold classifyTokens
  rw [h2, h3, h4, h5]
  simp

/-- Tokenizing a run of canonical 33/65-byte key pushes prepends one token per
key. -/
theorem tokenizeV0_keyPushes (keys : List (List Nat)) (rest : List Nat)
    (hk : ∀ k ∈ keys, k.length = 33 ∨ k.length = 65) :
    tokenizeV0 ((keys.map (fun k => k.length :: k)).flatten ++ rest) =
      (tokenizeV0 rest).map
        (fun ts => keys.map (fun k => (⟨k.length, k⟩ : Token)) ++ ts) := by
  induction keys with
  | nil =>
    simp only [List.map_nil, List.flatten_nil, List.nil_append]
    cases tokenizeV0 rest <;> simp
  | cons k ks ih =>
    have hklen := hk k (by simp)
    have hflat : ((k :: ks).map (fun k => k.length :: k)).flatten ++ rest =
        k.length :: (k ++ ((ks.map (fun k => k.length :: k)).flatten ++ rest)) := by
      simp
    rw [hflat, tokenizeV0_cons_data k.length k _ (by omega) (by omega) rfl]
    rw [ih (fun x hx => hk x (by simp [hx]))]
    cases tokenizeV0 rest <;> simp

/-- Splitting a run of canonical key pushes recovers exactly the keys. -/
theorem splitKeyPushes_keys (keys : List (List Nat)) (t0 : Token) (tr : List Token)
    (hk : ∀ k ∈ keys, k.length = 33 ∨ k.length = 65)
    (ht0 : isMultiSigKeyPush t0 = false) :
    splitKeyPushes (keys.map (fun k => (⟨k.length, k⟩ : Token)) ++ (t0 :: tr)) =
      (keys, t0 :: tr) := by
  induction keys with
  | nil => simp [splitKeyPushes, ht0]
  | cons k ks ih =>
    have hklen := hk k (by simp)
    have hpush : isMultiSigKeyPush ⟨k.length, k⟩ = true := by
      simp only [isMultiSigKeyPush, decide_eq_true_eq]
      rcases hklen with h | h <;> simp [h]
    simp only [List.map_cons, List.cons_append, splitKeyPushes, List.append_eq]
    rw [if_pos hpush, ih (fun x hx => hk x (by simp [hx]))]

theorem asSmallIntOp (j : Nat) (h : 1 ≤ j) : AsSmallInt (80 + j) = j := by
  unfold AsSmallInt
  rw [if_neg (by omega)]
  omega

theorem isSmallIntOp (j : Nat) (h1 : 1 ≤ j) (h2 : j ≤ 16) :
    IsSmallInt (80 + j) = true := by
  simp only [IsSmallInt, decide_eq_true_eq]
  omega

/-- C6: every script matching the multisig shape (small-int m, pushes of
33/65-byte values, small-int n equal to the push count, CHECKMULTISIG) with
1 ≤ m ≤ n classifies as MultiSig regardless of whether the pushed values are
decodable public keys, and address extraction returns exactly the decodable
keys' addresses (possibly an empty list, fewer than n) together with the
required-signature count m and no error.  `pkDecodable` ranges over all
possible external key decoders, so the statement covers every combination of
decodable and undecodable pushes; small integer opcodes bound n by 16, within
the claim's 1 ≤ m ≤ n ≤ 20 constraint. -/
theorem multisig_shape_classifies_and_extracts (pkDecodable : List Nat → Bool)
    (m n : Nat) (keys : List (List Nat)) (flag : Bool)
    (hm : 1 ≤ m) (hmn : m ≤ n) (hn : n ≤ 16) (hcount : keys.length = n)
    (hk : ∀ k ∈ keys, k.length = 33 ∨ k.length = 65) :
    GetScriptClass 0 (multiSigScriptBytes m n keys) flag = .MultiSigTy ∧
    ExtractPkScriptAddrs pkDecodable 0 (multiSigScriptBytes m n keys) flag =
      (.MultiSigTy, keys.filter pkDecodable, m, none) := by
  have hop_m : smallIntOp m = 80 + m := by unfold smallIntOp; rw [if_neg (by omega)]
  have hop_n : smallIntOp n = 80 + n := by unfold smallIntOp; rw [if_neg (by omega)]
  have htok : tokenizeV0 (multiSigScriptBytes m n keys) =
      some (⟨80 + m, []⟩ :: (keys.map (fun k => (⟨k.length, k⟩ : Token)) ++
        [⟨80 + n, []⟩, ⟨174, []⟩])) := by
    unfold multiSigScriptBytes
    rw [hop_m, hop_n]
    rw [tokenizeV0_cons_op (80 + m) _ (by omega)]
    rw [tokenizeV0_keyPushes keys [80 + n, 174] hk]
    rw [tokenizeV0_cons_op (80 + n) [174] (by omega), tokenizeV0_cons_op 174 [] (by omega)]
    rfl
  have htokz : tokenize 0 (multiSigScriptBytes m n keys) =
      some (⟨80 + m, []⟩ :: (keys.map (fun k => (⟨k.length, k⟩ : Token)) ++
        [⟨80 + n, []⟩, ⟨174, []⟩])) := by
    unfold tokenize
    rw [if_pos rfl, htok]
  have hsplit := splitKeyPushes_keys keys ⟨80 + n, []⟩ [⟨174, []⟩] hk
    (by simp [isMultiSigKeyPush])
  have hms : extractMultiSigToks (⟨80 + m, []⟩ ::
      (keys.map (fun k => (⟨k.length, k⟩ : Token)) ++ [⟨80 + n, []⟩, ⟨174, []⟩])) =
      some (m, keys) := by
    simp only [extractMultiSigToks, hsplit]
    simp [isSmallIntOp m hm (by omega), isSmallIntOp n (by omega) hn,
      asSmallIntOp m hm, asSmallIntOp n (by omega), hcount, hm, hmn,
      (show n ≤ 20 by omega)]
  have hnone1 : extractPubKeyToks (⟨80 + m, []⟩ ::
      (keys.map (fun k => (⟨k.length, k⟩ : Token)) ++ [⟨80 + n, []⟩, ⟨174, []⟩])) =
      none := extractPubKeyToks_none_of_length _ (by simp)
  have hnone2 : extractPubKeyHashToks (⟨80 + m, []⟩ ::
      (keys.map (fun k => (⟨k.length, k⟩ : Token)) ++ [⟨80 + n, []⟩, ⟨174, []⟩])) =
      none := extractPubKeyHashToks_none_of_first _ _ (by show 80 + m ≠ 118; omega)
  have hnone3 : extractScriptHashToks (⟨80 + m, []⟩ ::
      (keys.map (fun k => (⟨k.length, k⟩ : Token)) ++ [⟨80 + n, []⟩, ⟨174, []⟩])) =
      none := extractScriptHashToks_none_of_first _ _ (by show 80 + m ≠ 169; omega)
  constructor
  · unfold GetScriptClass
    rw [htokz]
    exact classifyTokens_of_multisig _ m keys hnone1 hnone2 hnone3 hms flag
  · unfold ExtractPkScriptAddrs
    rw [htokz]
    simp only [hnone1, hnone2, hnone3, hms]

/-- Witness for C6: a concrete 1-of-2 multisig whose second push is rejected
by the decoder; extraction returns only the first key and m = 1. -/
theorem multisig_shape_classifies_and_extracts_witness :
    GetScriptClass 0
      (multiSigScriptBytes 1 2 [2 :: List.replicate 32 7, 4 :: List.replicate 64 9])
      false = .MultiSigTy ∧
    ExtractPkScriptAddrs (fun k => decide (k.length = 33)) 0
      (multiSigScriptBytes 1 2 [2 :: List.replicate 32 7, 4 :: List.replicate 64 9])
      false =
      (.MultiSigTy, [2 :: List.replicate 32 7], 1, none) :=
  multisig_shape_classifies_and_extracts (fun k => decide (k.length = 33)) 1 2
    [2 :: List.replicate 32 7, 4 :: List.replicate 64 9] false
    (by decide) (by decide) (by decide) (by decide) (by decide)

/-! ## Atomic swap extraction -/

/-- The data extracted from an atomic-swap contract script
(AtomicSwapDataPushes in the source package). -/
structure AtomicSwapDataPushes where
  recipientHash160 : List Nat
  refundHash160 : List Nat
  secretHash : List Nat
  secretSize : Int
  lockTime : Int
  deriving DecidableEq

/-- Modelled from the spec: a template slot that must hold a canonical script
number — either a data push whose payload decodes through `MakeScriptNum`
within the slot's maximum length, or a small integer opcode; any other opcode
(or a failed decode) fails the slot. -/
def tokNum (maxLen : Nat) (t : Token) : Option Int :=
  if 1 ≤ t.opcode ∧ t.opcode ≤ 78 then
    match MakeScriptNum t.data maxLen with
    | .ok v => some v
    | .error _ => none
  else if IsSmallInt t.opcode then some (AsSmallInt t.opcode)
  else none

/-- Modelled from the spec: the fixed 20-entry atomic-swap template
IF (99) SIZE (130) [number] EQUALVERIFY (136) SHA256 (168) 32-byte-push
EQUALVERIFY DUP (118) HASH160 (169) 20-byte-push ELSE (103) [number]
CHECKLOCKTIMEVERIFY (177) DROP (117) DUP HASH160 20-byte-push ENDIF (104)
EQUALVERIFY CHECKSIG (172).  The size slot is bounded by the math-opcode
maximum number length and the locktime slot by the CHECKLOCKTIMEVERIFY
maximum; the decoded secret size is extracted as-is, as pinned by
TestExtractAtomicSwapDataPushes ("mismatched smallint secret size" extracts
size 16), so the spec's "must decode to exactly 32" is not a match
requirement of the code. -/
def matchSwapTemplate (ts : List Token) : Option AtomicSwapDataPushes :=
  match ts with
  | [t0, t1, t2, t3, t4, t5, t6, t7, t8, t9, t10, t11,
     t12, t13, t14, t15, t16, t17, t18, t19] =>
    match tokNum MathOpCodeMaxScriptNumLen t2, tokNum CltvMaxScriptNumLen t11 with
    | some secretSize, some lockTime =>
      if t0.opcode = 99 ∧ t1.opcode = 130 ∧ t3.opcode = 136 ∧ t4.opcode = 168 ∧
          t5.opcode = 32 ∧ t5.data.length = 32 ∧ t6.opcode = 136 ∧ t7.opcode = 118 ∧
          t8.opcode = 169 ∧ t9.opcode = 20 ∧ t9.data.length = 20 ∧ t10.opcode = 103 ∧
          t12.opcode = 177 ∧ t13.opcode = 117 ∧ t14.opcode = 118 ∧ t15.opcode = 169 ∧
          t16.opcode = 20 ∧ t16.data.length = 20 ∧ t17.opcode = 104 ∧
          t18.opcode = 136 ∧ t19.opcode = 172 then
        some ⟨t9.data, t16.data, t5.data, secretSize, lockTime⟩
      else none
    | _, _ => none
  | _ => none

/-- Modelled from the spec: ExtractAtomicSwapDataPushes — a script version
other than 0 is the hard error UnsupportedScriptVersion; at version 0 a
tokenization failure or a template mismatch is "no match" (`ok none`), never
an error. -/
def ExtractAtomicSwapDataPushes (version : Nat) (script : List Nat) :
    Except ErrKind (Option AtomicSwapDataPushes) :=
  if version ≠ 0 then .error .unsupportedScriptVersion
  else
    match tokenizeV0 script with
    | none => .ok none
    | some ts => .ok (matchSwapTemplate ts)

/-- The 32-byte secret hash used by the atomic-swap test fixtures. -/
def swapSecretHash : List Nat :=
  [159, 134, 208, 129, 136, 76, 125, 101, 154, 47, 234, 160, 197, 90, 208, 21,
   163, 191, 79, 27, 43, 11, 130, 44, 209, 93, 108, 21, 176, 240, 10, 8]

/-- The 20-byte recipient hash 0x…01 of the atomic-swap test fixtures. -/
def swapRecipientHash : List Nat := List.replicate 19 0 ++ [1]

/-- The 20-byte refund hash 0x…02 of the atomic-swap test fixtures. -/
def swapRefundHash : List Nat := List.replicate 19 0 ++ [2]

/-- An atomic-swap-shaped script with configurable slots: the size operand,
the three pushes (opcode included), the locktime operand and the closing
opcodes. -/
def atomicSwapScriptG (sizeOp secretPush recipientPush lockOp refundPush tail :
    List Nat) : List Nat :=
  [99, 130] ++ sizeOp ++ [136, 168] ++ secretPush ++ [136, 118, 169] ++
    recipientPush ++ [103] ++ lockOp ++ [177, 117, 118, 169] ++ refundPush ++ tail

/-- The standard atomic-swap script of the test fixtures with the given size
and locktime operands. -/
def atomicSwapScript (sizeOp lockOp : List Nat) : List Nat :=
  atomicSwapScriptG sizeOp (32 :: swapSecretHash) (20 :: swapRecipientHash) lockOp
    (20 :: swapRefundHash) [104, 136, 172]

/-- C8: the extractor's two negative outcomes are distinct.  Any script at a
version other than the supported version 0 yields the hard error
UnsupportedScriptVersion (even the bytes of a valid version-0 atomic swap at
version 65535), while structural deviations at version 0 — a NOP in the size
or locktime slot, a wrong secret-hash or recipient/refund-hash push length, a
missing final CHECKSIG, a trailing opcode — yield "no match": ok none, with no
error. -/
theorem atomic_swap_negative_outcomes :
    (∀ (version : Nat) (s : List Nat), version ≠ 0 →
      ExtractAtomicSwapDataPushes version s = .error .unsupportedScriptVersion) ∧
    ExtractAtomicSwapDataPushes 0 (atomicSwapScript [97] [3, 224, 147, 4]) = .ok none ∧
    ExtractAtomicSwapDataPushes 0 (atomicSwapScript [1, 32] [97]) = .ok none ∧
    ExtractAtomicSwapDataPushes 0 (atomicSwapScriptG [1, 32]
      (31 :: swapSecretHash.take 31) (20 :: swapRecipientHash) [3, 224, 147, 4]
      (20 :: swapRefundHash) [104, 136, 172]) = .ok none ∧
    ExtractAtomicSwapDataPushes 0 (atomicSwapScriptG [1, 32] (32 :: swapSecretHash)
      (19 :: swapRecipientHash.take 19) [3, 224, 147, 4] (20 :: swapRefundHash)
      [104, 136, 172]) = .ok none ∧
    ExtractAtomicSwapDataPushes 0 (atomicSwapScriptG [1, 32] (32 :: swapSecretHash)
      (20 :: swapRecipientHash) [3, 224, 147, 4] (19 :: swapRefundHash.take 19)
      [104, 136, 172]) = .ok none ∧
    ExtractAtomicSwapDataPushes 0 (atomicSwapScriptG [1, 32] (32 :: swapSecretHash)
      (20 :: swapRecipientHash) [3, 224, 147, 4] (20 :: swapRefundHash)
      [104, 136]) = .ok none ∧
    ExtractAtomicSwapDataPushes 0 (atomicSwapScript [1, 32] [3, 224, 147, 4] ++ [97]) =
      .ok none ∧
    ExtractAtomicSwapDataPushes 65535 (atomicSwapScript [1, 32] [3, 224, 147, 4]) =
      .error .unsupportedScriptVersion := by
  refine ⟨fun v s hv => ?_, by decide, by decide, by decide, by decide, by decide,
    by decide, by decide, by decide⟩
  unfold ExtractAtomicSwapDataPushes
  rw [if_pos hv]

/-- Witness for C8's universally quantified part at version 1 over the empty
script. -/
theorem atomic_swap_negative_outcomes_witness :
    ExtractAtomicSwapDataPushes 1 [] = .error .unsupportedScriptVersion :=
  atomic_swap_negative_outcomes.1 1 [] (by decide)

/-! ## Null-data generation -/

/-- Modelled from the spec: the canonical data push of the script builder —
an empty payload or a single zero byte becomes OP_0, a single byte 1..16 the
matching small integer opcode, a single byte 0x81 OP_1NEGATE, and otherwise a
DATA_n, PUSHDATA1, PUSHDATA2 or PUSHDATA4 push as the length requires, with
little-endian length prefixes. -/
def canonicalDataPush (data : List Nat) : List Nat :=
  if data.length = 0 then [0]
  else if data.length = 1 ∧ data.headD 0 = 0 then [0]
  else if data.length = 1 ∧ data.headD 0 ≤ 16 then [80 + data.headD 0]
  else if data.length = 1 ∧ data.headD 0 = 129 then [79]
  else if data.length ≤ 75 then data.length :: data
  else if data.length ≤ 255 then [76, data.length] ++ data
  else if data.length ≤ 65535 then [77, data.length % 256, data.length / 256] ++ data
  else [78, data.length % 256, data.length / 256 % 256, data.length / 65536 % 256,
    data.length / 16777216 % 256] ++ data

/-- Modelled from the spec: GenerateProvablyPruneableOut — fails with
TooMuchNullData when the payload exceeds `MaxDataCarrierSize` bytes, and
otherwise produces RETURN followed by the canonical push of the payload. -/
def GenerateProvablyPruneableOut (data : List Nat) : Except ErrKind (List Nat) :=
  if MaxDataCarrierSize < data.length then .error .tooMuchNullData
  else .ok (106 :: canonicalDataPush data)

theorem extractPubKeyToks_pair_none (t0 t1 : Token) (h : t1.opcode ≠ 172) :
    extractPubKeyToks [t0, t1] = none := by
  simp only [extractPubKeyToks]
  rw [if_neg (fun hc => h hc.1)]

theorem extractPubKeyHashToks_pair_none (t0 t1 : Token) :
    extractPubKeyHashToks [t0, t1] = none := rfl

theorem extractScriptHashToks_pair_none (t0 t1 : Token) :
    extractScriptHashToks [t0, t1] = none := rfl

theorem extractMultiSigToks_none_of_first (t : Token) (ts : List Token)
    (h : IsSmallInt t.opcode = false) :
    extractMultiSigToks (t :: ts) = none := by
  simp only [extractMultiSigToks]
  rw [if_neg (by simp [h])]

theorem isNullDataToks_return_push (op : Nat) (d : List Nat)
    (hop : op ≤ 78) (hlen : d.length ≤ MaxDataCarrierSize) :
    isNullDataToks [⟨106, []⟩, ⟨op, d⟩] = true := by
  simp [isNullDataToks, hop, hlen]

/-- A RETURN followed by one push-style token of bounded size classifies as
null data under either treasury flag setting. -/
theorem classifyTokens_nulldata_pair (op : Nat) (d : List Nat) (flag : Bool)
    (hop : op ≤ 78) (hop2 : op ≠ 172) (hlen : d.length ≤ MaxDataCarrierSize) :
    classifyTokens [⟨106, []⟩, ⟨op, d⟩] flag = .NullDataTy := by
  unfold classifyTokens
  rw [extractPubKeyToks_pair_none ⟨106, []⟩ ⟨op, d⟩ (by simpa using hop2)]
  rw [extractPubKeyHashToks_pair_none, extractScriptHashToks_pair_none]
  rw [extractMultiSigToks_none_of_first ⟨106, []⟩ _ (by decide)]
  rw [isNullDataToks_return_push op d hop hlen]
  simp

/-- C9: null-data generation has an exact boundary — every payload of exactly
the maximum allowed size (`MaxDataCarrierSize`) generates without error, and
the generated script classifies as NullData with either setting of the
treasury flag, while every payload one byte larger fails generation with
TooMuchNullData and returns no script. -/
theorem nulldata_generation_boundary :
    (∀ data : List Nat, data.length = MaxDataCarrierSize →
      GenerateProvablyPruneableOut data = .ok (106 :: 77 :: 0 :: 1 :: data) ∧
      GetScriptClass 0 (106 :: 77 :: 0 :: 1 :: data) false = .NullDataTy ∧
      GetScriptClass 0 (106 :: 77 :: 0 :: 1 :: data) true = .NullDataTy) ∧
    (∀ data : List Nat, data.length = MaxDataCarrierSize + 1 →
      GenerateProvablyPruneableOut data = .error .tooMuchNullData) := by
  constructor
  · intro data hlen
    have hlen256 : data.length = 256 := hlen
    have htok : tokenizeV0 (106 :: 77 :: 0 :: 1 :: data) =
        some [⟨106, []⟩, ⟨77, data⟩] := by
      rw [tokenizeV0_cons_op 106 _ (by omega)]
      conv_lhs => rw [show (77 :: 0 :: 1 :: data : List Nat) =
        77 :: 0 :: 1 :: (data ++ []) by simp]
      rw [tokenizeV0_cons_pushData2 0 1 data [] (by omega)]
      rfl
    have hcls : ∀ flag, GetScriptClass 0 (106 :: 77 :: 0 :: 1 :: data) flag =
        .NullDataTy := by
      intro flag
      unfold GetScriptClass tokenize
      rw [if_pos rfl, htok]
      exact classifyTokens_nulldata_pair 77 data flag (by omega) (by omega)
        (le_of_eq hlen)
    refine ⟨?_, hcls false, hcls true⟩
    unfold GenerateProvablyPruneableOut canonicalDataPush
    rw [hlen256]
    norm_num [MaxDataCarrierSize]
  · intro data hlen
    unfold GenerateProvablyPruneableOut
    rw [if_pos (by simp [MaxDataCarrierSize] at hlen ⊢; omega)]

/-- Witness for C9 at a concrete 256-byte payload and a concrete 257-byte
payload. -/
theorem nulldata_generation_boundary_witness :
    GenerateProvablyPruneableOut (List.replicate 256 7) =
      .ok (106 :: 77 :: 0 :: 1 :: List.replicate 256 7) ∧
    GetScriptClass 0 (106 :: 77 :: 0 :: 1 :: List.replicate 256 7) true = .NullDataTy ∧
    GenerateProvablyPruneableOut (List.replicate 257 7) = .error .tooMuchNullData :=
  ⟨(nulldata_generation_boundary.1 (List.replicate 256 7)
      (by rw [List.length_replicate]; rfl)).1,
   (nulldata_generation_boundary.1 (List.replicate 256 7)
      (by rw [List.length_replicate]; rfl)).2.2,
   nulldata_generation_boundary.2 (List.replicate 257 7)
      (by rw [List.length_replicate]; rfl)⟩

end DcrTxScript
